import Mathlib

/-!
Verification of `src/utilities/concurrecncy.py` (speculative execution
primitives) as a shallow embedding.

The module offers two functions:

* `speculative_execution(predicate, outcome, outcome_inputs, *args,
  max_workers, use_predicate_output, **kwargs)` — submits the predicate and
  one outcome task per candidate input to a thread pool, waits for the
  predicate, scans candidates with `==` cancelling non-matching futures,
  and returns the matched future's result (or falls back / raises
  `SpeculativeError`).
* `background_execution(coroutine, *args, **kwargs)` — fire-and-forget on a
  single-worker pool.

Modelling choices:

* A computation that can raise is an `Except ε α`; the predicate's bound
  arguments are already applied, so it is a plain `Except ε ρ`.
* Python `==` between predicate output and candidates is an explicit
  `beq : ρ → ρ → Bool` applied as `beq predicate_output candidate`,
  mirroring the source's `predicate_output == outcome_input`.
* Futures are identified by their submission index; the run additionally
  returns a `RunLog` recording the observable scheduler interactions:
  the requested pool size, whether the pool was constructed, what was
  submitted, each `Future.cancel()` request (with multiplicity), each
  outcome future whose `.result()` was awaited, and each fresh (in the
  calling context) call of `outcome`.
* `concurrent.futures.ThreadPoolExecutor` raises `ValueError` when
  `max_workers <= 0` (CPython standard library behaviour); this is the
  `valueError` outcome below.  `Executor.shutdown(wait=False)` does not
  cancel pending futures (its `cancel_futures` parameter defaults to
  `False`), so the `finally` block contributes nothing to the log.
* The Python exception classes involved are modelled with their method
  resolution order, enough to decide which `except` clauses catch them:
  the source declares `class SpeculativeError(KeyError, Generic[...])`.
-/

/-- Python exception classes relevant to this module. -/
inductive PyExnClass where
  | BaseException
  | Exception
  | LookupError
  | KeyError
  | ValueError
  | SpeculativeError
deriving DecidableEq, Repr

/-- Linearised method resolution order of each class (CPython semantics for
the built-ins; `SpeculativeError`'s head comes from the source's
`class SpeculativeError(KeyError, Generic[PREDICATE_OUTPUT])`). -/
def PyExnClass.mro : PyExnClass → List PyExnClass
  | .BaseException => [.BaseException]
  | .Exception => [.Exception, .BaseException]
  | .LookupError => [.LookupError, .Exception, .BaseException]
  | .KeyError => [.KeyError, .LookupError, .Exception, .BaseException]
  | .ValueError => [.ValueError, .Exception, .BaseException]
  | .SpeculativeError =>
      [.SpeculativeError, .KeyError, .LookupError, .Exception, .BaseException]

/-- `issubclass(c, d)` for the modelled classes. -/
def PyExnClass.isSubclassOf (c d : PyExnClass) : Bool :=
  d ∈ c.mro

/-- Failures that `speculative_execution` can surface to its caller. -/
inductive SpecExn (ρ ε : Type) where
  /-- `ValueError` from `ThreadPoolExecutor(max_workers=...)` with a
  non-positive worker count. -/
  | valueError
  /-- An exception of the caller's own (`raise`d inside the predicate or the
  outcome function) propagating unchanged. -/
  | raised (e : ε)
  /-- `SpeculativeError(message, predicate_output)`: predicate output absent
  from the outcome inputs and `use_predicate_output` is `False`. -/
  | speculativeError (predicate_output : ρ)
deriving DecidableEq, Repr

/-- The Python class of a surfaced failure; `none` for a caller-defined
exception whose class the module does not constrain. -/
def SpecExn.pyClass : SpecExn ρ ε → Option PyExnClass
  | .valueError => some .ValueError
  | .raised _ => none
  | .speculativeError _ => some .SpeculativeError

/-- The `predicate_output` attribute stored on the exception object
(`self.predicate_output = predicate_output` in `SpeculativeError.__init__`);
`none` for exceptions without that field. -/
def SpecExn.predicateOutputField : SpecExn ρ ε → Option ρ
  | .speculativeError p => some p
  | _ => none

/-- Whether `except C:` catches the surfaced failure: it does when the
failure's class is a subclass of `C`. -/
def SpecExn.caughtBy (exn : SpecExn ρ ε) (handler : PyExnClass) : Bool :=
  match exn.pyClass with
  | some c => c.isSubclassOf handler
  | none => false

/-- Observable interactions of one `speculative_execution` call with the
executor and the futures. -/
structure RunLog (ρ : Type) where
  /-- The `max_workers` value passed to `ThreadPoolExecutor`. -/
  requestedPoolSize : Int
  /-- Whether `ThreadPoolExecutor(...)` returned (it raises on a
  non-positive worker count). -/
  poolCreated : Bool
  /-- Whether `executor.submit(predicate, ...)` was reached. -/
  predicateSubmitted : Bool
  /-- How many outcome futures were submitted. -/
  submittedOutcomes : Nat
  /-- Indices of outcome futures receiving a `.cancel()` call, in order,
  with multiplicity. -/
  cancelRequests : List Nat
  /-- Indices of outcome futures whose `.result()` was awaited. -/
  awaitedOutcomes : List Nat
  /-- Inputs on which `outcome` was called directly in the calling context
  (the `use_predicate_output` fallback), not through a future. -/
  freshOutcomeCalls : List ρ
deriving DecidableEq, Repr

/-- The `for outcome_input, outcome_future in zip(outcome_inputs,
outcome_outputs):` loop: `i` is the index of the current future, `m` the
current `matching_outcome_future` (as index and input of the future's task),
`cs` the `.cancel()` calls issued so far.  An equal candidate overwrites
`m`; a non-equal one gets one cancellation request. -/
def matchLoop (beq : ρ → ρ → Bool) (p : ρ) :
    List ρ → Nat → Option (Nat × ρ) → List Nat → Option (Nat × ρ) × List Nat
  | [], _, m, cs => (m, cs)
  | c :: rest, i, m, cs =>
      if beq p c then matchLoop beq p rest (i + 1) (some (i, c)) cs
      else matchLoop beq p rest (i + 1) m (cs ++ [i])

/-- The worker count handed to `ThreadPoolExecutor`:
`len(outcome_inputs) + 1` when `max_workers` is `None`, else
`min(max_workers, len(outcome_inputs) + 1)`. -/
def poolSizeRequest (outcome_inputs : List ρ) (max_workers : Option Int) : Int :=
  match max_workers with
  | none => (outcome_inputs.length : Int) + 1
  | some m => min m ((outcome_inputs.length : Int) + 1)

/-- Shallow embedding of `speculative_execution`.  Returns the value or
failure surfaced to the caller together with the `RunLog` of observable
scheduler interactions. -/
def speculative_execution (predicate : Except ε ρ) (outcome : ρ → Except ε ω)
    (outcome_inputs : List ρ) (beq : ρ → ρ → Bool)
    (max_workers : Option Int) (use_predicate_output : Bool) :
    Except (SpecExn ρ ε) ω × RunLog ρ :=
  let mw := poolSizeRequest outcome_inputs max_workers
  if mw ≤ 0 then
    -- `ThreadPoolExecutor(max_workers=mw)` raises ValueError; nothing ran.
    (Except.error SpecExn.valueError,
     ⟨mw, false, false, 0, [], [], []⟩)
  else
    -- predicate future and one outcome future per input are submitted.
    match predicate with
    | Except.error e =>
        -- `predicate_future.result()` re-raises; `finally` shuts the pool
        -- down without cancelling anything.
        (Except.error (SpecExn.raised e),
         ⟨mw, true, true, outcome_inputs.length, [], [], []⟩)
    | Except.ok predicate_output =>
        let scan := matchLoop beq predicate_output outcome_inputs 0 none []
        match scan.1 with
        | none =>
            if use_predicate_output then
              ((outcome predicate_output).mapError SpecExn.raised,
               ⟨mw, true, true, outcome_inputs.length, scan.2, [],
                [predicate_output]⟩)
            else
              (Except.error (SpecExn.speculativeError predicate_output),
               ⟨mw, true, true, outcome_inputs.length, scan.2, [], []⟩)
        | some jc =>
            -- `matching_outcome_future.result()`: the future at index
            -- `jc.1` computes `outcome jc.2`.
            ((outcome jc.2).mapError SpecExn.raised,
             ⟨mw, true, true, outcome_inputs.length, scan.2, [jc.1], []⟩)

/-- Shallow embedding of `background_execution`: a single-worker pool is
created, the work is submitted (its eventual failure is stored in the
discarded future), and the pool is shut down without waiting.  The caller
receives `()` and no failure, whatever the work does. -/
def background_execution (coroutine : Except ε ω) : Except ε Unit × Nat :=
  let pool_max_workers : Nat := 1
  let _discarded_future : Except ε ω := coroutine
  (Except.ok (), pool_max_workers)

/-! ### Characterisation of the matching loop -/

/-- The final `matching_outcome_future` of the scan started at index `i`
with no match yet: the last equal candidate wins (the loop overwrites
without breaking). -/
def lastMatch (beq : ρ → ρ → Bool) (p : ρ) : List ρ → Nat → Option (Nat × ρ)
  | [], _ => none
  | c :: rest, i =>
      match lastMatch beq p rest (i + 1) with
      | some jc => some jc
      | none => if beq p c then some (i, c) else none

/-- Indices of the futures receiving a cancellation request during the
scan started at index `i`: exactly the non-equal candidates, in order. -/
def cancelIdxs (beq : ρ → ρ → Bool) (p : ρ) : List ρ → Nat → List Nat
  | [], _ => []
  | c :: rest, i =>
      if beq p c then cancelIdxs beq p rest (i + 1)
      else i :: cancelIdxs beq p rest (i + 1)

theorem matchLoop_eq (beq : ρ → ρ → Bool) (p : ρ) (l : List ρ) :
    ∀ (i : Nat) (m : Option (Nat × ρ)) (cs : List Nat),
      matchLoop beq p l i m cs =
        ((lastMatch beq p l i).or m, cs ++ cancelIdxs beq p l i) := by
  induction l with
  | nil => intro i m cs; simp [matchLoop, lastMatch, cancelIdxs]
  | cons c rest ih =>
      intro i m cs
      by_cases hbeq : beq p c = true
      · rw [matchLoop, if_pos hbeq, ih, lastMatch]
        cases lastMatch beq p rest (i + 1) <;> simp [cancelIdxs, hbeq]
      · rw [matchLoop, if_neg hbeq, ih, lastMatch]
        cases lastMatch beq p rest (i + 1) <;> simp [cancelIdxs, hbeq]

theorem mem_cancelIdxs_le (beq : ρ → ρ → Bool) (p : ρ) (l : List ρ) :
    ∀ (i : Nat) (j : Nat), j ∈ cancelIdxs beq p l i → i ≤ j := by
  induction l with
  | nil => intro i j h; simp [cancelIdxs] at h
  | cons c rest ih =>
      intro i j h
      rw [cancelIdxs] at h
      by_cases hbeq : beq p c = true
      · rw [if_pos hbeq] at h
        exact Nat.le_of_succ_le (ih (i + 1) j h)
      · rw [if_neg hbeq] at h
        rcases List.mem_cons.mp h with h0 | h1
        · exact Nat.le_of_eq h0.symm
        · exact Nat.le_of_succ_le (ih (i + 1) j h1)

/-- Each index occurs in the cancellation list exactly when its candidate
is non-equal, and then exactly once. -/
theorem count_cancelIdxs (beq : ρ → ρ → Bool) (p : ρ) (l : List ρ) :
    ∀ (i k : Nat),
      (cancelIdxs beq p l i).count (i + k) =
        if h : k < l.length then (if beq p (l.get ⟨k, h⟩) then 0 else 1)
        else 0 := by
  induction l with
  | nil => intro i k; simp [cancelIdxs]
  | cons c rest ih =>
      intro i k
      rw [cancelIdxs]
      cases k with
      | zero =>
          by_cases hbeq : beq p c = true
          · rw [if_pos hbeq]
            simp only [Nat.add_zero, List.length_cons, List.get]
            rw [dif_pos (Nat.succ_pos rest.length), if_pos hbeq]
            exact List.count_eq_zero.mpr
              (fun hmem => Nat.not_succ_le_self i
                (mem_cancelIdxs_le beq p rest (i + 1) i hmem))
          · rw [if_neg hbeq]
            simp only [Nat.add_zero, List.length_cons, List.get]
            rw [dif_pos (Nat.succ_pos rest.length), if_neg hbeq]
            rw [List.count_cons_self]
            rw [List.count_eq_zero.mpr
              (fun hmem => Nat.not_succ_le_self i
                (mem_cancelIdxs_le beq p rest (i + 1) i hmem))]
      | succ k' =>
          have hshift : i + (k' + 1) = (i + 1) + k' := by omega
          by_cases hbeq : beq p c = true
          · rw [if_pos hbeq, hshift, ih (i + 1) k']
            simp [Nat.succ_lt_succ_iff]
          · rw [if_neg hbeq]
            rw [List.count_cons_of_ne (by omega)]
            rw [hshift, ih (i + 1) k']
            simp [Nat.succ_lt_succ_iff]

/-- The scan ends with no match exactly when no candidate equals the
predicate output. -/
theorem lastMatch_eq_none (beq : ρ → ρ → Bool) (p : ρ) (l : List ρ) :
    ∀ i, lastMatch beq p l i = none ↔ ∀ c ∈ l, beq p c = false := by
  induction l with
  | nil => intro i; simp [lastMatch]
  | cons c rest ih =>
      intro i
      rw [lastMatch]
      constructor
      · intro h
        cases hrest : lastMatch beq p rest (i + 1) with
        | some jc => rw [hrest] at h; exact absurd h (by simp)
        | none =>
            rw [hrest] at h
            by_cases hbeq : beq p c = true
            · rw [if_pos hbeq] at h; exact absurd h (by simp)
            · intro x hx
              rcases List.mem_cons.mp hx with rfl | hx'
              · simpa using hbeq
              · exact (ih (i + 1)).mp hrest x hx'
      · intro h
        have hc : beq p c = false := h c (List.mem_cons_self c rest)
        have hrest : lastMatch beq p rest (i + 1) = none :=
          (ih (i + 1)).mpr (fun x hx => h x (List.mem_cons_of_mem c hx))
        rw [hrest, hc]
        simp

/-- A successful scan selects an equal candidate, at the offset position it
occupies, and it is the last equal one: every later candidate is non-equal
(the loop overwrites `matching_outcome_future` on every hit). -/
theorem lastMatch_spec (beq : ρ → ρ → Bool) (p : ρ) (l : List ρ) :
    ∀ i j c, lastMatch beq p l i = some (j, c) →
      ∃ k, ∃ h : k < l.length, j = i + k ∧ l.get ⟨k, h⟩ = c ∧ beq p c = true ∧
        ∀ k', (h' : k' < l.length) → k < k' → beq p (l.get ⟨k', h'⟩) = false := by
  induction l with
  | nil => intro i j c h; simp [lastMatch] at h
  | cons c0 rest ih =>
      intro i j c h
      rw [lastMatch] at h
      cases hrest : lastMatch beq p rest (i + 1) with
      | some jc =>
          rw [hrest] at h
          have hjc : jc = (j, c) := by simpa using h
          subst hjc
          obtain ⟨k, hk, hj, hget, hb, hlater⟩ := ih (i + 1) j c hrest
          refine ⟨k + 1, Nat.succ_lt_succ hk, by omega, ?_, hb, ?_⟩
          · simpa using hget
          · intro k' h' hlt
            cases k' with
            | zero => omega
            | succ k'' =>
                have h'' : k'' < rest.length := Nat.lt_of_succ_lt_succ h'
                have := hlater k'' h'' (Nat.lt_of_succ_lt_succ hlt)
                simpa using this
      | none =>
          rw [hrest] at h
          by_cases hbeq : beq p c0 = true
          · rw [if_pos hbeq] at h
            have hij : i = j ∧ c0 = c := by simpa using h
            obtain ⟨rfl, rfl⟩ := hij
            refine ⟨0, Nat.succ_pos rest.length, by omega, by simp, hbeq, ?_⟩
            intro k' h' hlt
            cases k' with
            | zero => omega
            | succ k'' =>
                have h'' : k'' < rest.length := Nat.lt_of_succ_lt_succ h'
                have hx := (lastMatch_eq_none beq p rest (i + 1)).mp hrest
                  (rest.get ⟨k'', h''⟩) (rest.get_mem k'' h'')
                simpa using hx
          · rw [if_neg hbeq] at h
            exact absurd h (by simp)

/-! ### Run characterisation -/

/-- With a usable pool and a failing predicate, the call surfaces the
predicate's own exception and touches no future. -/
theorem run_of_predicate_error (outcome : ρ → Except ε ω)
    (outcome_inputs : List ρ) (beq : ρ → ρ → Bool) (max_workers : Option Int)
    (use_predicate_output : Bool) (e : ε)
    (hpool : 0 < poolSizeRequest outcome_inputs max_workers) :
    speculative_execution (Except.error e) outcome outcome_inputs beq
        max_workers use_predicate_output =
      (Except.error (SpecExn.raised e),
       ⟨poolSizeRequest outcome_inputs max_workers, true, true,
        outcome_inputs.length, [], [], []⟩) := by
  simp only [speculative_execution]
  rw [if_neg (not_le.mpr hpool)]

/-- With a usable pool and a successful predicate, the call is determined by
the scan: the last equal candidate's future is awaited (if any), the
non-equal candidates' futures are cancelled, otherwise the fallback branch
runs. -/
theorem run_of_predicate_ok (outcome : ρ → Except ε ω)
    (outcome_inputs : List ρ) (beq : ρ → ρ → Bool) (max_workers : Option Int)
    (use_predicate_output : Bool) (p : ρ)
    (hpool : 0 < poolSizeRequest outcome_inputs max_workers) :
    speculative_execution (Except.ok p) outcome outcome_inputs beq
        max_workers use_predicate_output =
      match lastMatch beq p outcome_inputs 0 with
      | some jc =>
          ((outcome jc.2).mapError SpecExn.raised,
           ⟨poolSizeRequest outcome_inputs max_workers, true, true,
            outcome_inputs.length, cancelIdxs beq p outcome_inputs 0,
            [jc.1], []⟩)
      | none =>
          if use_predicate_output then
            ((outcome p).mapError SpecExn.raised,
             ⟨poolSizeRequest outcome_inputs max_workers, true, true,
              outcome_inputs.length, cancelIdxs beq p outcome_inputs 0,
              [], [p]⟩)
          else
            (Except.error (SpecExn.speculativeError p),
             ⟨poolSizeRequest outcome_inputs max_workers, true, true,
              outcome_inputs.length, cancelIdxs beq p outcome_inputs 0,
              [], []⟩) := by
  simp only [speculative_execution]
  rw [if_neg (not_le.mpr hpool)]
  rw [matchLoop_eq]
  cases lastMatch beq p outcome_inputs 0 with
  | none => simp
  | some jc => simp

/-! ### Claim theorems -/

/-- C1: for every candidate list and every predicate that succeeds with an
output equal to some candidate, `speculative_execution` returns the result
of a pre-submitted outcome future for a candidate equal to the predicate
output (awaiting that future, computing no fresh outcome), and every
outcome future whose candidate is not equal to the predicate output
receives exactly one cancellation request. -/
theorem speculative_returns_presubmitted_and_cancels_nonmatching
    {ρ ε ω : Type} (predicate : Except ε ρ) (outcome : ρ → Except ε ω)
    (outcome_inputs : List ρ) (beq : ρ → ρ → Bool) (max_workers : Option Int)
    (use_predicate_output : Bool) (p : ρ)
    (hpool : 0 < poolSizeRequest outcome_inputs max_workers)
    (hp : predicate = Except.ok p)
    (hmatch : ∃ c ∈ outcome_inputs, beq p c = true) :
    let r := speculative_execution predicate outcome outcome_inputs beq
      max_workers use_predicate_output
    (∃ k, ∃ h : k < outcome_inputs.length,
        beq p (outcome_inputs.get ⟨k, h⟩) = true ∧
        r.1 = (outcome (outcome_inputs.get ⟨k, h⟩)).mapError SpecExn.raised ∧
        r.2.awaitedOutcomes = [k]) ∧
    r.2.freshOutcomeCalls = [] ∧
    ∀ j, (hj : j < outcome_inputs.length) →
      beq p (outcome_inputs.get ⟨j, hj⟩) = false →
      r.2.cancelRequests.count j = 1 := by
  subst hp
  intro r
  obtain ⟨c0, hc0mem, hc0⟩ := hmatch
  cases hlm : lastMatch beq p outcome_inputs 0 with
  | none =>
      have := (lastMatch_eq_none beq p outcome_inputs 0).mp hlm c0 hc0mem
      rw [this] at hc0
      exact absurd hc0 (by simp)
  | some jc =>
      obtain ⟨j, c⟩ := jc
      obtain ⟨k, hk, hj, hget, hb, _⟩ := lastMatch_spec beq p outcome_inputs 0 j c hlm
      have hr : r = ((outcome c).mapError SpecExn.raised,
          ⟨poolSizeRequest outcome_inputs max_workers, true, true,
           outcome_inputs.length, cancelIdxs beq p outcome_inputs 0, [j], []⟩) := by
        show speculative_execution (Except.ok p) outcome outcome_inputs beq
            max_workers use_predicate_output = _
        rw [run_of_predicate_ok outcome outcome_inputs beq max_workers
          use_predicate_output p hpool, hlm]
      refine ⟨⟨k, hk, ?_, ?_, ?_⟩, ?_, ?_⟩
      · rw [hget]; exact hb
      · rw [hr, hget]
      · rw [hr]
        have hjk : j = k := by omega
        rw [hjk]
      · rw [hr]
      · intro j' hj' hne
        rw [hr]
        have := count_cancelIdxs beq p outcome_inputs 0 j'
        rw [Nat.zero_add] at this
        simp only [this, dif_pos hj', hne]
        simp

/-- Witness for C1: candidates `[5, 3]`, predicate output `3`,
outcome `x * 10`. -/
theorem speculative_returns_presubmitted_and_cancels_nonmatching_witness :
    let r := speculative_execution (Except.ok 3)
      (fun c => (Except.ok (c * 10) : Except Nat Nat)) [5, 3] Nat.beq none true
    (∃ k, ∃ h : k < ([5, 3] : List Nat).length,
        Nat.beq 3 (([5, 3] : List Nat).get ⟨k, h⟩) = true ∧
        r.1 = (Except.ok ((([5, 3] : List Nat).get ⟨k, h⟩) * 10)).mapError
          SpecExn.raised ∧
        r.2.awaitedOutcomes = [k]) ∧
    r.2.freshOutcomeCalls = [] ∧
    ∀ j, (hj : j < ([5, 3] : List Nat).length) →
      Nat.beq 3 (([5, 3] : List Nat).get ⟨j, hj⟩) = false →
      r.2.cancelRequests.count j = 1 :=
  speculative_returns_presubmitted_and_cancels_nonmatching (Except.ok 3)
    (fun c => Except.ok (c * 10)) [5, 3] Nat.beq none true 3
    (by decide) rfl (by decide)

/-- C2 counterexample: candidates `[0, 0]`, predicate output `0`.  The run
awaits the future at index 1 (the later duplicate) and issues no
cancellation request at all, refuting "awaits only the earliest equal
candidate; the later duplicates each receive a cancellation request and
are never awaited". -/
theorem duplicate_candidates_earliest_claim_counterexample :
    let r := speculative_execution (Except.ok 0)
      (fun c => (Except.ok c : Except Nat Nat)) [0, 0] Nat.beq none true
    r.2.awaitedOutcomes = [1] ∧ r.2.cancelRequests = [] ∧
      ¬ (r.2.awaitedOutcomes = [0] ∧ r.2.cancelRequests.count 1 = 1) := by
  decide

/-- C2 (amended): with two or more equal candidates, the future of the
LAST equal candidate is the one awaited (the loop overwrites the match on
every hit and never breaks); every other equal candidate — in particular
each earlier duplicate — receives no cancellation request and its future
is never awaited. -/
theorem duplicate_candidates_last_match_awaited
    {ρ ε ω : Type} (predicate : Except ε ρ) (outcome : ρ → Except ε ω)
    (outcome_inputs : List ρ) (beq : ρ → ρ → Bool) (max_workers : Option Int)
    (use_predicate_output : Bool) (p : ρ)
    (hpool : 0 < poolSizeRequest outcome_inputs max_workers)
    (hp : predicate = Except.ok p)
    (hmatch : ∃ c ∈ outcome_inputs, beq p c = true) :
    let r := speculative_execution predicate outcome outcome_inputs beq
      max_workers use_predicate_output
    ∃ k, ∃ h : k < outcome_inputs.length,
      beq p (outcome_inputs.get ⟨k, h⟩) = true ∧
      (∀ k', (h' : k' < outcome_inputs.length) → k < k' →
        beq p (outcome_inputs.get ⟨k', h'⟩) = false) ∧
      r.2.awaitedOutcomes = [k] ∧
      ∀ j, (hj : j < outcome_inputs.length) → j ≠ k →
        beq p (outcome_inputs.get ⟨j, hj⟩) = true →
        r.2.cancelRequests.count j = 0 ∧ j ∉ r.2.awaitedOutcomes := by
  subst hp
  intro r
  obtain ⟨c0, hc0mem, hc0⟩ := hmatch
  cases hlm : lastMatch beq p outcome_inputs 0 with
  | none =>
      have := (lastMatch_eq_none beq p outcome_inputs 0).mp hlm c0 hc0mem
      rw [this] at hc0
      exact absurd hc0 (by simp)
  | some jc =>
      obtain ⟨j, c⟩ := jc
      obtain ⟨k, hk, hj, hget, hb, hlater⟩ :=
        lastMatch_spec beq p outcome_inputs 0 j c hlm
      have hr : r = ((outcome c).mapError SpecExn.raised,
          ⟨poolSizeRequest outcome_inputs max_workers, true, true,
           outcome_inputs.length, cancelIdxs beq p outcome_inputs 0, [j], []⟩) := by
        show speculative_execution (Except.ok p) outcome outcome_inputs beq
            max_workers use_predicate_output = _
        rw [run_of_predicate_ok outcome outcome_inputs beq max_workers
          use_predicate_output p hpool, hlm]
      have hjk : j = k := by omega
      refine ⟨k, hk, ?_, hlater, ?_, ?_⟩
      · rw [hget]; exact hb
      · rw [hr, hjk]
      · intro j' hj' hne hbj'
        constructor
        · rw [hr]
          have := count_cancelIdxs beq p outcome_inputs 0 j'
          rw [Nat.zero_add] at this
          simp only [this, dif_pos hj', hbj']
          simp
        · rw [hr, hjk]
          simp [hne]

/-- Witness for the amended C2: candidates `[0, 0]`, predicate output `0`:
index 1 is awaited; index 0 is an earlier duplicate, uncancelled and not
awaited. -/
theorem duplicate_candidates_last_match_awaited_witness :
    let r := speculative_execution (Except.ok 0)
      (fun c => (Except.ok c : Except Nat Nat)) [0, 0] Nat.beq none true
    ∃ k, ∃ h : k < ([0, 0] : List Nat).length,
      Nat.beq 0 (([0, 0] : List Nat).get ⟨k, h⟩) = true ∧
      (∀ k', (h' : k' < ([0, 0] : List Nat).length) → k < k' →
        Nat.beq 0 (([0, 0] : List Nat).get ⟨k', h'⟩) = false) ∧
      r.2.awaitedOutcomes = [k] ∧
      ∀ j, (hj : j < ([0, 0] : List Nat).length) → j ≠ k →
        Nat.beq 0 (([0, 0] : List Nat).get ⟨j, hj⟩) = true →
        r.2.cancelRequests.count j = 0 ∧ j ∉ r.2.awaitedOutcomes :=
  duplicate_candidates_last_match_awaited (Except.ok 0)
    (fun c => Except.ok c) [0, 0] Nat.beq none true 0
    (by decide) rfl (by decide)

/-- C3 counterexample: candidates `[0]`, predicate fails with `7`.  The
outcome future at index 0 receives no cancellation request (its count is
0, refuting "requests cancellation of every outcome task"), and the
surfaced failure is the predicate's own exception, not a wrapper. -/
theorem predicate_failure_cancels_all_counterexample :
    let r := speculative_execution (Except.error 7)
      (fun c => (Except.ok c : Except Nat Nat)) [0] Nat.beq none true
    r.1 = Except.error (SpecExn.raised 7) ∧ r.2.awaitedOutcomes = [] ∧
      r.2.cancelRequests.count 0 = 0 ∧ ¬ (1 ≤ r.2.cancelRequests.count 0) :=
  ⟨rfl, rfl, rfl, by decide⟩

/-- C3 (amended): for every candidate list, if the predicate raises, then
no outcome future is ever awaited and no fresh outcome is computed — but
also no cancellation request is issued (`shutdown(wait=False)` does not
cancel pending futures), and the failure surfaced is the predicate's own
exception, propagated unwrapped rather than as a dedicated wrapper. -/
theorem predicate_failure_propagates_unwrapped
    {ρ ε ω : Type} (predicate : Except ε ρ) (outcome : ρ → Except ε ω)
    (outcome_inputs : List ρ) (beq : ρ → ρ → Bool) (max_workers : Option Int)
    (use_predicate_output : Bool) (e : ε)
    (hpool : 0 < poolSizeRequest outcome_inputs max_workers)
    (hp : predicate = Except.error e) :
    let r := speculative_execution predicate outcome outcome_inputs beq
      max_workers use_predicate_output
    r.1 = Except.error (SpecExn.raised e) ∧ r.2.cancelRequests = [] ∧
      r.2.awaitedOutcomes = [] ∧ r.2.freshOutcomeCalls = [] := by
  subst hp
  intro r
  have hr : r = (Except.error (SpecExn.raised e),
      ⟨poolSizeRequest outcome_inputs max_workers, true, true,
       outcome_inputs.length, [], [], []⟩) :=
    run_of_predicate_error outcome outcome_inputs beq max_workers
      use_predicate_output e hpool
  rw [hr]
  exact ⟨rfl, rfl, rfl, rfl⟩

/-- Witness for the amended C3: candidates `[0]`, predicate failure `7`. -/
theorem predicate_failure_propagates_unwrapped_witness :
    let r := speculative_execution (Except.error 7)
      (fun c => (Except.ok c : Except Nat Nat)) [0] Nat.beq none true
    r.1 = Except.error (SpecExn.raised 7) ∧ r.2.cancelRequests = [] ∧
      r.2.awaitedOutcomes = [] ∧ r.2.freshOutcomeCalls = [] :=
  predicate_failure_propagates_unwrapped (Except.error 7)
    (fun c => Except.ok c) [0] Nat.beq none true 7 (by decide) rfl

/-- C4: when the predicate output equals no candidate and
`use_predicate_output` is `False`, the call fails with
`SpeculativeError(message, predicate_output)`, whose `predicate_output`
attribute holds the predicate output itself; no outcome value is returned,
no future is awaited and no fresh outcome is computed. -/
theorem no_match_no_fallback_raises_speculative_error
    {ρ ε ω : Type} (predicate : Except ε ρ) (outcome : ρ → Except ε ω)
    (outcome_inputs : List ρ) (beq : ρ → ρ → Bool) (max_workers : Option Int)
    (p : ρ)
    (hpool : 0 < poolSizeRequest outcome_inputs max_workers)
    (hp : predicate = Except.ok p)
    (hnone : ∀ c ∈ outcome_inputs, beq p c = false) :
    let r := speculative_execution predicate outcome outcome_inputs beq
      max_workers false
    r.1 = Except.error (SpecExn.speculativeError p) ∧
      (SpecExn.speculativeError p : SpecExn ρ ε).predicateOutputField = some p ∧
      (∀ v : ω, r.1 ≠ Except.ok v) ∧
      r.2.awaitedOutcomes = [] ∧ r.2.freshOutcomeCalls = [] := by
  subst hp
  intro r
  have hlm : lastMatch beq p outcome_inputs 0 = none :=
    (lastMatch_eq_none beq p outcome_inputs 0).mpr hnone
  have hr : r = (Except.error (SpecExn.speculativeError p),
      ⟨poolSizeRequest outcome_inputs max_workers, true, true,
       outcome_inputs.length, cancelIdxs beq p outcome_inputs 0, [], []⟩) := by
    show speculative_execution (Except.ok p) outcome outcome_inputs beq
        max_workers false = _
    rw [run_of_predicate_ok outcome outcome_inputs beq max_workers false p hpool,
      hlm]
    simp
  rw [hr]
  exact ⟨rfl, rfl, fun v h => by simp at h, rfl, rfl⟩

/-- Witness for C4: candidates `[1, 2, 3]`, predicate output `5`. -/
theorem no_match_no_fallback_raises_speculative_error_witness :
    let r := speculative_execution (Except.ok 5)
      (fun c => (Except.ok (c * 10) : Except Nat Nat)) [1, 2, 3] Nat.beq none false
    r.1 = Except.error (SpecExn.speculativeError 5) ∧
      (SpecExn.speculativeError 5 : SpecExn Nat Nat).predicateOutputField
        = some 5 ∧
      (∀ v : Nat, r.1 ≠ Except.ok v) ∧
      r.2.awaitedOutcomes = [] ∧ r.2.freshOutcomeCalls = [] :=
  no_match_no_fallback_raises_speculative_error (Except.ok 5)
    (fun c => Except.ok (c * 10)) [1, 2, 3] Nat.beq none 5
    (by decide) rfl (by decide)

/-- C5: when the predicate output equals no candidate (the empty candidate
list included) and `use_predicate_output` is `True`, the call returns
`outcome(predicate_output)` computed freshly and synchronously in the
calling context — no pre-submitted future is awaited. -/
theorem no_match_fallback_computes_fresh
    {ρ ε ω : Type} (predicate : Except ε ρ) (outcome : ρ → Except ε ω)
    (outcome_inputs : List ρ) (beq : ρ → ρ → Bool) (max_workers : Option Int)
    (p : ρ)
    (hpool : 0 < poolSizeRequest outcome_inputs max_workers)
    (hp : predicate = Except.ok p)
    (hnone : ∀ c ∈ outcome_inputs, beq p c = false) :
    let r := speculative_execution predicate outcome outcome_inputs beq
      max_workers true
    r.1 = (outcome p).mapError SpecExn.raised ∧
      r.2.freshOutcomeCalls = [p] ∧ r.2.awaitedOutcomes = [] := by
  subst hp
  intro r
  have hlm : lastMatch beq p outcome_inputs 0 = none :=
    (lastMatch_eq_none beq p outcome_inputs 0).mpr hnone
  have hr : r = ((outcome p).mapError SpecExn.raised,
      ⟨poolSizeRequest outcome_inputs max_workers, true, true,
       outcome_inputs.length, cancelIdxs beq p outcome_inputs 0, [], [p]⟩) := by
    show speculative_execution (Except.ok p) outcome outcome_inputs beq
        max_workers true = _
    rw [run_of_predicate_ok outcome outcome_inputs beq max_workers true p hpool,
      hlm]
    simp
  rw [hr]
  exact ⟨rfl, rfl, rfl⟩

/-- Witness for C5 on the empty candidate list: predicate output `5`,
outcome `x * 10`; the call returns `50` computed fresh. -/
theorem no_match_fallback_computes_fresh_witness :
    let r := speculative_execution (Except.ok 5)
      (fun c => (Except.ok (c * 10) : Except Nat Nat)) [] Nat.beq none true
    r.1 = (Except.ok (5 * 10)).mapError SpecExn.raised ∧
      r.2.freshOutcomeCalls = [5] ∧ r.2.awaitedOutcomes = [] :=
  no_match_fallback_computes_fresh (Except.ok 5)
    (fun c => Except.ok (c * 10)) [] Nat.beq none 5
    (by decide) rfl (by decide)

/-- C6 counterexample: two invocations whose matched candidates differ
(`3` and `4`) but whose matched outcome fails identically surface *equal*
failures — the raw original exception — so the surfaced failure wraps
neither the original failure in a dedicated `OutcomeFailed` wrapper nor
the identity of the matched candidate. -/
theorem outcome_failure_wrapper_counterexample :
    let r1 := speculative_execution (Except.ok 3)
      (fun _ => (Except.error 9 : Except Nat Nat)) [3] Nat.beq none true
    let r2 := speculative_execution (Except.ok 4)
      (fun _ => (Except.error 9 : Except Nat Nat)) [4] Nat.beq none true
    r1.2.awaitedOutcomes = [0] ∧ r2.2.awaitedOutcomes = [0] ∧
      r1.1 = Except.error (SpecExn.raised 9) ∧ r2.1 = r1.1 ∧ (3 : Nat) ≠ 4 :=
  ⟨rfl, rfl, rfl, rfl, by decide⟩

/-- C6 (amended): when a matching candidate exists and the matched outcome
computation fails with `e`, the call fails with `e` itself: the original
exception propagates unwrapped, carrying no additional candidate
identity. -/
theorem matched_outcome_failure_propagates_raw
    {ρ ε ω : Type} (predicate : Except ε ρ) (outcome : ρ → Except ε ω)
    (outcome_inputs : List ρ) (beq : ρ → ρ → Bool) (max_workers : Option Int)
    (use_predicate_output : Bool) (p : ρ)
    (hpool : 0 < poolSizeRequest outcome_inputs max_workers)
    (hp : predicate = Except.ok p)
    (hmatch : ∃ c ∈ outcome_inputs, beq p c = true) :
    let r := speculative_execution predicate outcome outcome_inputs beq
      max_workers use_predicate_output
    ∃ k, ∃ h : k < outcome_inputs.length,
      beq p (outcome_inputs.get ⟨k, h⟩) = true ∧
      ∀ e, outcome (outcome_inputs.get ⟨k, h⟩) = Except.error e →
        r.1 = Except.error (SpecExn.raised e) := by
  subst hp
  intro r
  obtain ⟨c0, hc0mem, hc0⟩ := hmatch
  cases hlm : lastMatch beq p outcome_inputs 0 with
  | none =>
      have := (lastMatch_eq_none beq p outcome_inputs 0).mp hlm c0 hc0mem
      rw [this] at hc0
      exact absurd hc0 (by simp)
  | some jc =>
      obtain ⟨j, c⟩ := jc
      obtain ⟨k, hk, hj, hget, hb, _⟩ :=
        lastMatch_spec beq p outcome_inputs 0 j c hlm
      have hr : r = ((outcome c).mapError SpecExn.raised,
          ⟨poolSizeRequest outcome_inputs max_workers, true, true,
           outcome_inputs.length, cancelIdxs beq p outcome_inputs 0, [j], []⟩) := by
        show speculative_execution (Except.ok p) outcome outcome_inputs beq
            max_workers use_predicate_output = _
        rw [run_of_predicate_ok outcome outcome_inputs beq max_workers
          use_predicate_output p hpool, hlm]
      refine ⟨k, hk, by rw [hget]; exact hb, ?_⟩
      intro e he
      rw [hr]
      rw [hget] at he
      rw [he]
      rfl

/-- Witness for the amended C6: candidate `[3]`, predicate output `3`,
outcome failing with `9`. -/
theorem matched_outcome_failure_propagates_raw_witness :
    let r := speculative_execution (Except.ok 3)
      (fun _ => (Except.error 9 : Except Nat Nat)) [3] Nat.beq none true
    ∃ k, ∃ h : k < ([3] : List Nat).length,
      Nat.beq 3 (([3] : List Nat).get ⟨k, h⟩) = true ∧
      ∀ e, (fun _ => (Except.error 9 : Except Nat Nat))
          (([3] : List Nat).get ⟨k, h⟩) = Except.error e →
        r.1 = Except.error (SpecExn.raised e) :=
  matched_outcome_failure_propagates_raw (Except.ok 3)
    (fun _ => Except.error 9) [3] Nat.beq none true 3
    (by decide) rfl (by decide)

/-- The log's pool fields on any run whose pool construction succeeds. -/
theorem run_log_pool_fields
    {ρ ε ω : Type} (predicate : Except ε ρ) (outcome : ρ → Except ε ω)
    (outcome_inputs : List ρ) (beq : ρ → ρ → Bool) (max_workers : Option Int)
    (use_predicate_output : Bool)
    (hpool : 0 < poolSizeRequest outcome_inputs max_workers) :
    let r := speculative_execution predicate outcome outcome_inputs beq
      max_workers use_predicate_output
    r.2.requestedPoolSize = poolSizeRequest outcome_inputs max_workers ∧
      r.2.poolCreated = true ∧ r.2.predicateSubmitted = true ∧
      r.2.submittedOutcomes = outcome_inputs.length := by
  intro r
  cases predicate with
  | error e =>
      rw [show r = _ from run_of_predicate_error outcome outcome_inputs beq
        max_workers use_predicate_output e hpool]
      exact ⟨rfl, rfl, rfl, rfl⟩
  | ok p =>
      rw [show r = _ from run_of_predicate_ok outcome outcome_inputs beq
        max_workers use_predicate_output p hpool]
      cases hlm : lastMatch beq p outcome_inputs 0 with
      | none =>
          cases use_predicate_output with
          | true => exact ⟨rfl, rfl, rfl, rfl⟩
          | false => exact ⟨rfl, rfl, rfl, rfl⟩
      | some jc => exact ⟨rfl, rfl, rfl, rfl⟩

/-- C7: the worker pool is created with `min(max_workers,
len(candidates) + 1)` workers when `max_workers` is given, and with
`len(candidates) + 1` workers when it is omitted. -/
theorem pool_size_is_min_candidates_plus_one
    {ρ ε ω : Type} (predicate : Except ε ρ) (outcome : ρ → Except ε ω)
    (outcome_inputs : List ρ) (beq : ρ → ρ → Bool) (max_workers : Option Int)
    (use_predicate_output : Bool)
    (hpool : 0 < poolSizeRequest outcome_inputs max_workers) :
    let r := speculative_execution predicate outcome outcome_inputs beq
      max_workers use_predicate_output
    r.2.poolCreated = true ∧
      r.2.requestedPoolSize =
        match max_workers with
        | some m => min m ((outcome_inputs.length : Int) + 1)
        | none => (outcome_inputs.length : Int) + 1 := by
  intro r
  obtain ⟨h1, h2, _, _⟩ := run_log_pool_fields predicate outcome outcome_inputs
    beq max_workers use_predicate_output hpool
  refine ⟨h2, ?_⟩
  rw [h1]
  cases max_workers <;> rfl

/-- Witness for C7: three candidates with `max_workers = 2` give a pool of
`min 2 4 = 2` workers. -/
theorem pool_size_is_min_candidates_plus_one_witness :
    let r := speculative_execution (Except.ok 1)
      (fun c => (Except.ok c : Except Nat Nat)) [1, 2, 3] Nat.beq (some 2) true
    r.2.poolCreated = true ∧
      r.2.requestedPoolSize =
        match (some 2 : Option Int) with
        | some m => min m ((([1, 2, 3] : List Nat).length : Int) + 1)
        | none => (([1, 2, 3] : List Nat).length : Int) + 1 :=
  pool_size_is_min_candidates_plus_one (Except.ok 1)
    (fun c => Except.ok c) [1, 2, 3] Nat.beq (some 2) true (by decide)

/-- C8: `background_execution` returns plain `None` — no handle, no result
— and never surfaces a failure of the spawned work to the caller: whatever
the work evaluates to (success or failure), the caller gets `()` from a
dedicated single-worker pool. -/
theorem background_execution_never_surfaces_errors
    {ε ω : Type} (coroutine : Except ε ω) :
    background_execution coroutine = (Except.ok (), 1) := rfl

/-- C9: the no-match error class `SpeculativeError` is declared as a
subclass of `KeyError`, so every invocation that fails with the no-match
error raises an exception that an `except KeyError:` handler catches. -/
theorem speculative_error_is_keyerror_subclass
    {ρ ε ω : Type} (predicate : Except ε ρ) (outcome : ρ → Except ε ω)
    (outcome_inputs : List ρ) (beq : ρ → ρ → Bool) (max_workers : Option Int)
    (p : ρ)
    (hpool : 0 < poolSizeRequest outcome_inputs max_workers)
    (hp : predicate = Except.ok p)
    (hnone : ∀ c ∈ outcome_inputs, beq p c = false) :
    let r := speculative_execution predicate outcome outcome_inputs beq
      max_workers false
    PyExnClass.SpeculativeError.isSubclassOf PyExnClass.KeyError = true ∧
      ∃ exn : SpecExn ρ ε, r.1 = Except.error exn ∧
        exn.pyClass = some PyExnClass.SpeculativeError ∧
        exn.caughtBy PyExnClass.KeyError = true := by
  subst hp
  intro r
  have hlm : lastMatch beq p outcome_inputs 0 = none :=
    (lastMatch_eq_none beq p outcome_inputs 0).mpr hnone
  have hr : r = (Except.error (SpecExn.speculativeError p),
      ⟨poolSizeRequest outcome_inputs max_workers, true, true,
       outcome_inputs.length, cancelIdxs beq p outcome_inputs 0, [], []⟩) := by
    show speculative_execution (Except.ok p) outcome outcome_inputs beq
        max_workers false = _
    rw [run_of_predicate_ok outcome outcome_inputs beq max_workers false p hpool,
      hlm]
    simp
  refine ⟨by decide, SpecExn.speculativeError p, ?_, rfl, rfl⟩
  rw [hr]

/-- Witness for C9: candidates `[1]`, predicate output `2`. -/
theorem speculative_error_is_keyerror_subclass_witness :
    let r := speculative_execution (Except.ok 2)
      (fun c => (Except.ok c : Except Nat Nat)) [1] Nat.beq none false
    PyExnClass.SpeculativeError.isSubclassOf PyExnClass.KeyError = true ∧
      ∃ exn : SpecExn Nat Nat, r.1 = Except.error exn ∧
        exn.pyClass = some PyExnClass.SpeculativeError ∧
        exn.caughtBy PyExnClass.KeyError = true :=
  speculative_error_is_keyerror_subclass (Except.ok 2)
    (fun c => Except.ok c) [1] Nat.beq none 2 (by decide) rfl (by decide)

/-- C10: a non-positive `max_workers` makes `ThreadPoolExecutor` raise
`ValueError` during pool construction — the pool is never created, the
predicate is never submitted, no outcome future is submitted, and nothing
is awaited, cancelled or computed fresh. -/
theorem nonpositive_max_workers_raises_value_error
    {ρ ε ω : Type} (predicate : Except ε ρ) (outcome : ρ → Except ε ω)
    (outcome_inputs : List ρ) (beq : ρ → ρ → Bool) (m : Int)
    (use_predicate_output : Bool)
    (hm : m ≤ 0) :
    speculative_execution predicate outcome outcome_inputs beq
        (some m) use_predicate_output =
      (Except.error SpecExn.valueError,
       RunLog.mk (poolSizeRequest outcome_inputs (some m))
         false false 0 [] [] []) ∧
      (SpecExn.valueError : SpecExn ρ ε).pyClass = some PyExnClass.ValueError := by
  have hle : poolSizeRequest outcome_inputs (some m) ≤ 0 := by
    simp only [poolSizeRequest]
    exact le_trans (min_le_left _ _) hm
  refine ⟨?_, rfl⟩
  simp only [speculative_execution]
  rw [if_pos hle]

/-- Witness for C10: `max_workers = 0` with one candidate. -/
theorem nonpositive_max_workers_raises_value_error_witness :
    speculative_execution (Except.ok 1)
        (fun c => (Except.ok c : Except Nat Nat)) [1] Nat.beq (some 0) true =
      (Except.error SpecExn.valueError,
       RunLog.mk (poolSizeRequest ([1] : List Nat) (some 0))
         false false 0 [] [] []) ∧
      (SpecExn.valueError : SpecExn Nat Nat).pyClass
        = some PyExnClass.ValueError :=
  nonpositive_max_workers_raises_value_error (Except.ok 1)
    (fun c => Except.ok c) [1] Nat.beq 0 true (by decide)
